import Mathlib

/-!
# Verification of libsrng against its specification

Shallow embedding of the libsrng pseudorandom number generator (a single C
file).  Machine integers are modelled as `Nat` with explicit reductions
(`% 256`, `% 65536`, `% 2^32`, `% 2^64`) exactly where the C code performs a
conversion or where unsigned arithmetic wraps.  Stateful C functions become
Lean functions returning a pair (result, updated state).  The one unbounded
loop of the program (the rejection-sampling redraw loop of
`libsrng_random_range`) is modelled with an explicit fuel parameter and an
`Option` result, `none` meaning the fuel ran out.
-/

namespace Libsrng

/-- The 5-field sub-state of `libsrng_stable_random`
(struct libsrng_stable_random_state): `shift` is a uint32_t, the four other
fields are uint8_t. -/
structure StableState where
  shift : Nat
  carry : Nat
  current : Nat
  prev : Nat
  linear : Nat
  deriving Repr, DecidableEq

/-- The macro STABLE_RANDOM_NEXT_LINEAR: `linear *= 73, linear += 29` on a
uint8_t field, returning the updated value. -/
def nextLinear (l : Nat) : Nat := (l * 73 % 256 + 29) % 256

/-- One iteration of the lazy-initialization loop of `libsrng_stable_random`:
`state->shift = (state->shift << 8) | STABLE_RANDOM_NEXT_LINEAR(state)` on a
(shift, linear) pair; the shift field is a uint32_t, hence the `% 2^32`. -/
def shiftInitStep (p : Nat × Nat) : Nat × Nat :=
  let l := nextLinear p.2
  ((p.1 <<< 8) % 4294967296 ||| l, l)

/-- The final combine step of `libsrng_stable_random` (the computation of
`p = state->shift >> ((state->linear >> 3) & 24)` followed by the `switch` on
`(state->linear >> 4) & 3`).  The C function returns an `unsigned char`, and
cases 2 and 3 wrap around in uint32_t arithmetic before that final
truncation; with `current < 2^32` and `shift < 2^32` the expressions below
compute exactly the C result. -/
def stableCombine (shift linear current : Nat) : Nat :=
  let p := shift >>> ((linear >>> 3) &&& 24)
  match (linear >>> 4) &&& 3 with
  | 0 => (p + current) % 256
  | 1 => (p ^^^ current) % 256
  | 2 => (p + (4294967296 - current)) % 256
  | _ => (current + (4294967296 - p)) % 256

/-- Modelled from the specification claim for comparison with
`stableCombine`: the 8 bits of `shift` taken at an offset selected by bits
3-4 of `linear` (offset = 8 * ((linear >> 3) & 3)), combined with `current`
by an operator selected by the next 2 bits (bits 5-6). -/
def stableCombineClaimed (shift linear current : Nat) : Nat :=
  let p := shift >>> (8 * ((linear >>> 3) &&& 3))
  match (linear >>> 5) &&& 3 with
  | 0 => (p + current) % 256
  | 1 => (p ^^^ current) % 256
  | 2 => (p + (4294967296 - current)) % 256
  | _ => (current + (4294967296 - p)) % 256

/-- The corrected reading of the combine step: the 8 bits of `shift` are
taken at an offset selected by bits 6-7 of `linear` (offset = 8 * ((linear
>> 6) & 3)), and the operator by bits 4-5. -/
def stableCombineBits67 (shift linear current : Nat) : Nat :=
  let p := shift >>> (8 * ((linear >>> 6) &&& 3))
  match (linear >>> 4) &&& 3 with
  | 0 => (p + current) % 256
  | 1 => (p ^^^ current) % 256
  | 2 => (p + (4294967296 - current)) % 256
  | _ => (current + (4294967296 - p)) % 256

/-- The splice-escape scan of `libsrng_stable_random`: the loop over the
`short_cycles` table (entries 0x72 4f 9f, 7b 1a 7b, 84 e5 56, 8d b0 32,
0 0 1) taken when `prev || current`; the first matching (prev, current,
carry) triple is replaced by the next triple of the table. -/
def spliceEscape (prev current carry : Nat) : Nat × Nat × Nat :=
  if prev = 0x72 ∧ current = 0x4f ∧ carry = 0x9f then (0x7b, 0x1a, 0x7b)
  else if prev = 0x7b ∧ current = 0x1a ∧ carry = 0x7b then (0x84, 0xe5, 0x56)
  else if prev = 0x84 ∧ current = 0xe5 ∧ carry = 0x56 then (0x8d, 0xb0, 0x32)
  else if prev = 0x8d ∧ current = 0xb0 ∧ carry = 0x32 then (0, 0, 1)
  else (prev, current, carry)

/-- The start-up-escape scan of `libsrng_stable_random`: the loop over the
`cycle_start_points` table {1, 2, 4, 8, 13, 17, 23, 26, 29, 58, 0}, taken
when `prev` and `current` are both zero.  Yields (prev, current, carry,
linear): carry steps to the next table entry; stepping past the end (from 58
to 0) seeds (prev, current, carry) from the head of the `short_cycles` table
and advances `linear` once. -/
def startupEscape (carry linear : Nat) : Nat × Nat × Nat × Nat :=
  if carry = 1 then (0, 0, 2, linear)
  else if carry = 2 then (0, 0, 4, linear)
  else if carry = 4 then (0, 0, 8, linear)
  else if carry = 8 then (0, 0, 13, linear)
  else if carry = 13 then (0, 0, 17, linear)
  else if carry = 17 then (0, 0, 23, linear)
  else if carry = 23 then (0, 0, 26, linear)
  else if carry = 26 then (0, 0, 29, linear)
  else if carry = 29 then (0, 0, 58, linear)
  else if carry = 58 then (0x72, 0x4f, 0x9f, nextLinear linear)
  else (0, 0, carry, linear)

/-- `libsrng_stable_random`: one call of the core byte engine, returning the
8-bit output and the advanced sub-state.  The tuple `e` below is
(prev, current, carry, linear) after the escape scans, and `f` is
(prev, carry, current, linear) after the fixed-point escape, mirroring the
assignment order of the C code. -/
def libsrng_stable_random (s : StableState) : Nat × StableState :=
  let il := if s.shift = 0 then
      shiftInitStep (shiftInitStep (shiftInitStep (shiftInitStep (0, s.linear))))
    else (s.shift, s.linear)
  let sh1 := il.1 ^^^ (il.1 >>> 8)
  let sh2 := sh1 ^^^ (sh1 <<< 9) % 4294967296
  let sh3 := sh2 ^^^ (sh2 >>> 23)
  let e :=
    if s.prev = 0 ∧ s.current = 0 then startupEscape s.carry il.2
    else
      let t := spliceEscape s.prev s.current s.carry
      (t.1, t.2.1, t.2.2, il.2)
  let carry2 := if 210 ≤ e.2.2.1 then e.2.2.1 - 210 else e.2.2.1
  let psum := carry2 + e.1 + e.2.1
  let f :=
    if psum = 0 ∨ psum = 719 then
      let la := nextLinear e.2.2.2
      let lb := nextLinear la
      let lc := nextLinear lb
      (la, lb, lc, lc)
    else (e.1, carry2, e.2.1, e.2.2.2)
  let p := 210 * f.1 + f.2.1
  let current4 := p &&& 255
  let linear4 := nextLinear f.2.2.2
  (stableCombine sh3 linear4 current4, ⟨sh3, p >>> 8, current4, f.2.2.1, linear4⟩)

/-! ## ByteAdapter: `libsrng_random_combined`

The C function has two branches.  The portable branch unpacks the 64-bit
register into the sub-state with explicit shifts and casts and repacks it
with explicit shifts and ors.  The fast branch reinterprets the register's
memory in place through `union libsrng_stable_random_state_union`; it is
guarded by a size check and a little-endian check, under which the struct
fields overlay the register's little-endian bytes: `shift` = bytes 0-3
(least significant first), `carry` = byte 4, `current` = byte 5, `prev` =
byte 6, `linear` = byte 7.  We model the fast branch through that byte
decomposition. -/

/-- The portable-branch unpack of `libsrng_random_combined`:
`{.shift = *state, .carry = *state >> 32, .current = *state >> 40,
.prev = *state >> 48, .linear = *state >> 56}`, each initializer converted
to the width of its field. -/
def unpackState (s : Nat) : StableState :=
  ⟨s % 4294967296, s >>> 32 % 256, s >>> 40 % 256, s >>> 48 % 256, s >>> 56 % 256⟩

/-- The portable-branch repack of `libsrng_random_combined`:
`shift | carry << 32 | current << 40 | prev << 48 | linear << 56`. -/
def packState (t : StableState) : Nat :=
  t.shift ||| t.carry <<< 32 ||| t.current <<< 40 ||| t.prev <<< 48 ||| t.linear <<< 56

/-- `libsrng_random_combined`, portable branch: unpack, run the byte engine,
repack; returns the byte and the updated register. -/
def libsrng_random_combined (s : Nat) : Nat × Nat :=
  let r := libsrng_stable_random (unpackState s)
  (r.1, packState r.2)

/-- Byte `i` (little-endian) of a register value. -/
def byteAt (s i : Nat) : Nat := s / 256 ^ i % 256

/-- `libsrng_random_combined`, fast branch: the in-place reinterpretation of
the register through the union, valid on a little-endian machine whose types
pass the size checks.  The struct fields overlay the register's
little-endian bytes; after the engine runs, the register's memory holds the
written-back fields at the same byte positions. -/
def libsrng_random_combined_fast (s : Nat) : Nat × Nat :=
  let st : StableState :=
    ⟨byteAt s 0 + 256 * byteAt s 1 + 65536 * byteAt s 2 + 16777216 * byteAt s 3,
     byteAt s 4, byteAt s 5, byteAt s 6, byteAt s 7⟩
  let r := libsrng_stable_random st
  (r.1, byteAt r.2.shift 0 + 256 * byteAt r.2.shift 1 + 65536 * byteAt r.2.shift 2 +
        16777216 * byteAt r.2.shift 3 + 4294967296 * (r.2.carry % 256) +
        1099511627776 * (r.2.current % 256) + 281474976710656 * (r.2.prev % 256) +
        72057594037927936 * (r.2.linear % 256))

/-! ## MultibyteAssembler: `libsrng_random_combined_multibyte` -/

/-- The `while (width --) result = (result << 8) | libsrng_random_combined(state);`
loop; `result` is a uint64_t, hence the `% 2^64` on the shift. -/
def multibyteLoop : Nat → Nat → Nat → Nat × Nat
  | width, acc, state =>
    match width with
    | 0 => (acc, state)
    | w + 1 =>
      let b := libsrng_random_combined state
      multibyteLoop w ((acc <<< 8) % 18446744073709551616 ||| b.1) b.2

/-- `libsrng_random_combined_multibyte`: for `width > sizeof(uint64_t)` the
guard returns `(uint64_t) -1` = `2^64 - 1` without touching the state;
otherwise it assembles `width` bytes big-endian. -/
def libsrng_random_combined_multibyte (state width : Nat) : Nat × Nat :=
  if 8 < width then (18446744073709551615, state) else multibyteLoop width 0 state

/-! ## HalfwordEngine: `libsrng_random_halfword` -/

/-- SWITCH_TRIGGER_STATE_0 (pi in 4.60 fixed point). -/
def SWITCH_TRIGGER_STATE_0 : Nat := 0x3243f6a8885a308d
/-- SWITCH_TRIGGER_STATE_1 (e in 4.60 fixed point). -/
def SWITCH_TRIGGER_STATE_1 : Nat := 0x2b7e151628aed2a6
/-- SWITCH_TRIGGER_STATE_2 (the golden ratio in 4.60 fixed point). -/
def SWITCH_TRIGGER_STATE_2 : Nat := 0x19e3779b97f4a7c1

/-- The scan over `switch_trigger_states` at the head of
`libsrng_random_halfword`: if the register equals trigger state 0, 1 or 2 it
is replaced by the next entry of the array (the array ends with a repeat of
entry 0, so trigger state 2 wraps to trigger state 0); the loop breaks at
the first match, every other register value is left untouched. -/
def switchTriggerAdjust (s : Nat) : Nat :=
  if s = SWITCH_TRIGGER_STATE_0 then SWITCH_TRIGGER_STATE_1
  else if s = SWITCH_TRIGGER_STATE_1 then SWITCH_TRIGGER_STATE_2
  else if s = SWITCH_TRIGGER_STATE_2 then SWITCH_TRIGGER_STATE_0
  else s

/-- `libsrng_random_linear`: `(previous * 0x6329 + 0x4321) & 0xffff`. -/
def libsrng_random_linear (previous : Nat) : Nat := (previous * 0x6329 + 0x4321) &&& 0xffff

/-- The whitening loop of `libsrng_random_halfword`:
`while (count --) buffer = libsrng_random_linear(buffer);`. -/
def linearIter : Nat → Nat → Nat
  | count, b =>
    match count with
    | 0 => b
    | n + 1 => linearIter n (libsrng_random_linear b)

/-- The body of `libsrng_random_halfword` after the trigger-state scan:
assemble a 2-byte buffer (converted to uint16_t), draw a control byte
decoding a rotation amount (top 4 bits), a multiplier 3/5/7/9 (next 2 bits)
and a whitening-round count 2-5 (low 2 bits plus 2); whiten, rotate,
multiply. -/
def halfwordBody (state : Nat) : Nat × Nat :=
  let m := libsrng_random_combined_multibyte state 2
  let buffer0 := m.1 % 65536
  let c := libsrng_random_combined m.2
  let shift := c.1 >>> 4
  let multiplier := 3 + ((c.1 &&& 12) >>> 1)
  let rounds := (c.1 &&& 3) + 2
  let buffer1 := linearIter rounds buffer0
  let buffer2 :=
    if shift ≠ 0 then ((buffer1 <<< shift) ||| (buffer1 >>> (16 - shift))) % 65536
    else buffer1
  ((buffer2 * multiplier) &&& 0xffff, c.2)

/-- `libsrng_random_halfword`: the trigger-state scan, then the body. -/
def libsrng_random_halfword (state : Nat) : Nat × Nat :=
  halfwordBody (switchTriggerAdjust state)

/-! ## SeedEngine: `libsrng_random_seed` -/

/-- SEED_LCG_MULTIPLIER. -/
def SEED_LCG_MULTIPLIER : Nat := 0x5851f42d4c957f2d
/-- SEED_LCG_FIRST_ADDEND. -/
def SEED_LCG_FIRST_ADDEND : Nat := 0x0123456789abcdef
/-- SEED_LCG_SECOND_ADDEND. -/
def SEED_LCG_SECOND_ADDEND : Nat := 0x0fedcba987654321

/-- The `for (count = 0; count < 4; count ++) second = (second << 16) +
libsrng_random_halfword(state);` loop of `libsrng_random_seed`; `second` is
a uint64_t. -/
def seedSecondLoop : Nat → Nat → Nat → Nat × Nat
  | count, acc, state =>
    match count with
    | 0 => (acc, state)
    | n + 1 =>
      let h := libsrng_random_halfword state
      seedSecondLoop n (((acc <<< 16) % 18446744073709551616 + h.1) % 18446744073709551616) h.2

/-- `libsrng_random_seed`: returns the derived seed value and the internally
advanced register (the caller then overwrites the register with the returned
value, discarding the advanced register). -/
def libsrng_random_seed (state : Nat) : Nat × Nat :=
  let m := libsrng_random_combined_multibyte state 8
  let first := (m.1 * SEED_LCG_MULTIPLIER + SEED_LCG_FIRST_ADDEND) % 18446744073709551616
  let sec := seedSecondLoop 4 0 m.2
  let second := (sec.1 * SEED_LCG_MULTIPLIER + SEED_LCG_SECOND_ADDEND) % 18446744073709551616
  (first ^^^ second, sec.2)

/-- The effect of one `*state = libsrng_random_seed(state);` statement of
`libsrng_random`: the register is replaced wholesale by the returned
value. -/
def seedStep (s : Nat) : Nat := (libsrng_random_seed s).1

/-- The `while (reseed --) *state = libsrng_random_seed(state);` loop of
`libsrng_random`: the register after `reseed` successive replacements, i.e.
the `reseed`-fold application of `seedStep`. -/
def seedIter (reseed s : Nat) : Nat := seedStep^[reseed] s

/-! ## RangeReducer: `libsrng_random_range` -/

/-- The rejection loop `while (result < resampling_limit) result =
libsrng_random_halfword(state);` followed by `return result % limit;`,
modelled with fuel: `none` means the fuel ran out before a draw was
accepted. -/
def rangeLoop (limit rl : Nat) : Nat → Nat → Nat → Option (Nat × Nat)
  | fuel, result, state =>
    if result < rl then
      match fuel with
      | 0 => none
      | fuel + 1 =>
        let h := libsrng_random_halfword state
        rangeLoop limit rl fuel h.1 h.2
    else some (result % limit, state)

/-- `libsrng_random_range`.  `limit` is a uint16_t, so the C expression
`limit - 1` wraps: it is `(limit + 65535) % 65536`.  `0x10000 % limit` is
computed in `int` and converted back to uint16_t for `resampling_limit`. -/
def libsrng_random_range (fuel state limit : Nat) : Option (Nat × Nat) :=
  if limit = 1 then some (0, state)
  else
    let h := libsrng_random_halfword state
    if limit &&& (limit + 65535) % 65536 = 0 then
      some (h.1 &&& (limit + 65535) % 65536, h.2)
    else if limit ≤ h.1 then some (h.1 % limit, h.2)
    else rangeLoop limit (65536 % limit % 65536) fuel h.1 h.2

/-! ## PublicEntry: `libsrng_random` -/

/-- `libsrng_random`: the public entry.  The state pointer is modelled as
`Option Nat` (`none` = NULL); the result pairs the returned value with the
final pointed-to register (`none` when the pointer was NULL, which also
expresses "left unmodified").  The outer `Option` is the fuel bound of the
rejection loop. -/
def libsrng_random (fuel : Nat) (state : Option Nat) (range reseed : Nat) :
    Option (Nat × Option Nat) :=
  match state with
  | none => some (0, none)
  | some s =>
    match libsrng_random_range fuel (seedIter reseed s) range with
    | none => none
    | some r => some (r.1, some r.2)

/-! ## Supporting lemmas -/

/-- Whatever the fuel, an accepted draw of the rejection loop is reduced
modulo `limit`, so the returned value is below any positive `limit`. -/
theorem rangeLoop_lt {limit rl : Nat} (hl : 0 < limit) :
    ∀ fuel result state r s', rangeLoop limit rl fuel result state = some (r, s') →
      r < limit := by
  intro fuel
  induction fuel with
  | zero =>
    intro result state r s' h
    rw [rangeLoop] at h
    split at h
    · simp at h
    · simp only [Option.some.injEq, Prod.mk.injEq] at h
      exact h.1 ▸ Nat.mod_lt _ hl
  | succ n ih =>
    intro result state r s' h
    rw [rangeLoop] at h
    split at h
    · exact ih _ _ r s' h
    · simp only [Option.some.injEq, Prod.mk.injEq] at h
      exact h.1 ▸ Nat.mod_lt _ hl

/-- Any value returned by `libsrng_random_range` with `limit > 1` is below
`limit`. -/
theorem range_result_lt {fuel state limit r s' : Nat} (hl : 1 < limit)
    (h : libsrng_random_range fuel state limit = some (r, s')) : r < limit := by
  rw [libsrng_random_range, if_neg (by omega : ¬ limit = 1)] at h
  simp only [] at h
  split at h
  · simp only [Option.some.injEq, Prod.mk.injEq] at h
    have hm : (limit + 65535) % 65536 < limit := by omega
    exact h.1 ▸ Nat.lt_of_le_of_lt Nat.and_le_right hm
  · split at h
    · simp only [Option.some.injEq, Prod.mk.injEq] at h
      exact h.1 ▸ Nat.mod_lt _ (by omega)
    · exact rangeLoop_lt (by omega) fuel _ _ r s' h

/-! ## Claims -/

/-- C1: for every initial 64-bit register value, every reseed count, and
every limit with `limit > 1`, whenever `libsrng_random(state, limit,
reseed)` returns a result (the rejection loop being run with any fuel
bound), that result satisfies `0 ≤ result < limit` (the lower bound is
automatic over `Nat`). -/
theorem random_range_bound (fuel state limit reseed r : Nat) (s' : Option Nat)
    (hl : 1 < limit)
    (h : libsrng_random fuel (some state) limit reseed = some (r, s')) :
    r < limit := by
  rw [libsrng_random] at h
  cases hr : libsrng_random_range fuel (seedIter reseed state) limit with
  | none => rw [hr] at h; simp at h
  | some p =>
    obtain ⟨p1, p2⟩ := p
    rw [hr] at h
    simp only [Option.some.injEq, Prod.mk.injEq] at h
    exact h.1 ▸ range_result_lt hl hr

/-- Witness for C1: at register 0, limit 10, no reseed and fuel 1 the draw
returns 1, and the theorem instantiates to 1 < 10. -/
theorem random_range_bound_witness :
    (1 : Nat) < 10 ∧
    libsrng_random 1 (some 0) 10 0 = some (1, some 3069868437586099576) ∧
    (1 : Nat) < 10 :=
  ⟨by decide, by decide,
   random_range_bound 1 0 10 0 1 (some 3069868437586099576) (by decide) (by decide)⟩

/-- C2: `libsrng_random(r, 1, n)` returns 0 and leaves the register equal to
`libsrng_random_seed` applied `n` times to the original value (`seedIter 0`
is the identity and `seedIter (n+1)` replaces the register by `seedStep` and
iterates, mirroring the reseed loop); in general the public entry applies the
seed step exactly `reseed` times in sequence, each replacing the register
wholesale, and then applies `libsrng_random_range` exactly once to the final
register. -/
theorem random_reseed_spec :
    (∀ r, seedIter 0 r = r) ∧
    (∀ n r, seedIter (n + 1) r = seedIter n (seedStep r)) ∧
    (∀ fuel r n, libsrng_random fuel (some r) 1 n = some (0, some (seedIter n r))) ∧
    (∀ fuel r range n,
      libsrng_random fuel (some r) range n =
        Option.map (fun p => (p.1, some p.2)) (libsrng_random_range fuel (seedIter n r) range)) := by
  refine ⟨fun r => rfl, fun n r => Function.iterate_succ_apply seedStep n r, ?_, ?_⟩
  · intro fuel r n
    rw [libsrng_random, libsrng_random_range]
    simp
  · intro fuel r range n
    rw [libsrng_random]
    cases hr : libsrng_random_range fuel (seedIter n r) range with
    | none => simp
    | some p => simp

/-- C7: at the start of every `libsrng_random_halfword` call, a register
equal to one of the three flagged constants is replaced by the next flagged
value (the third wrapping back to the first) before any byte is drawn, and
every other register value is left untouched by this step. -/
theorem halfword_trigger_spec :
    (switchTriggerAdjust SWITCH_TRIGGER_STATE_0 = SWITCH_TRIGGER_STATE_1 ∧
     switchTriggerAdjust SWITCH_TRIGGER_STATE_1 = SWITCH_TRIGGER_STATE_2 ∧
     switchTriggerAdjust SWITCH_TRIGGER_STATE_2 = SWITCH_TRIGGER_STATE_0) ∧
    (∀ s, s ≠ SWITCH_TRIGGER_STATE_0 → s ≠ SWITCH_TRIGGER_STATE_1 →
      s ≠ SWITCH_TRIGGER_STATE_2 → switchTriggerAdjust s = s) ∧
    (∀ s, libsrng_random_halfword s = halfwordBody (switchTriggerAdjust s)) := by
  refine ⟨⟨by decide, by decide, by decide⟩, ?_, fun s => rfl⟩
  intro s h0 h1 h2
  rw [switchTriggerAdjust, if_neg h0, if_neg h1, if_neg h2]

/-- Witness for C7: the register value 0 is none of the flagged constants
and is left untouched by the trigger scan. -/
theorem halfword_trigger_spec_witness :
    (0 : Nat) ≠ SWITCH_TRIGGER_STATE_0 ∧ (0 : Nat) ≠ SWITCH_TRIGGER_STATE_1 ∧
    (0 : Nat) ≠ SWITCH_TRIGGER_STATE_2 ∧ switchTriggerAdjust 0 = 0 :=
  ⟨by decide, by decide, by decide,
   halfword_trigger_spec.2.1 0 (by decide) (by decide) (by decide)⟩

/-- C10: for every byte count `w > 8`, `libsrng_random_combined_multibyte`
returns `2^64 - 1` (all ones) and leaves the register unchanged, drawing no
byte; for every `w ≤ 8` — which covers the only widths the pipeline ever
passes, 2 (halfword) and 8 (seed) — the guard is inert and the function is
the plain assembly loop. -/
theorem multibyte_guard_spec :
    (∀ state width, 8 < width →
      libsrng_random_combined_multibyte state width = (18446744073709551615, state)) ∧
    (∀ state width, width ≤ 8 →
      libsrng_random_combined_multibyte state width = multibyteLoop width 0 state) := by
  constructor
  · intro state width h
    rw [libsrng_random_combined_multibyte, if_pos h]
  · intro state width h
    rw [libsrng_random_combined_multibyte, if_neg (Nat.not_lt.mpr h)]

/-- Witness for C10: width 9 takes the guard branch at register 0; width 2
takes the loop branch. -/
theorem multibyte_guard_spec_witness :
    ((8 : Nat) < 9 ∧ libsrng_random_combined_multibyte 0 9 = (18446744073709551615, 0)) ∧
    ((2 : Nat) ≤ 8 ∧ libsrng_random_combined_multibyte 0 2 = multibyteLoop 2 0 0) :=
  ⟨⟨by decide, multibyte_guard_spec.1 0 9 (by decide)⟩,
   ⟨by decide, multibyte_guard_spec.2 0 2 (by decide)⟩⟩

/-- Every halfword output is of the form `t &&& 65535` for some `t`: the
final statement of the body is `return (buffer * multiplier) & 0xffff`. -/
theorem halfwordBody_shape (s : Nat) : ∃ t u, halfwordBody s = (t &&& 65535, u) := by
  rw [halfwordBody]
  exact ⟨_, _, rfl⟩

/-- Masking a halfword output with 0xffff is the identity. -/
theorem halfword_fst_and (s : Nat) :
    (libsrng_random_halfword s).1 &&& 65535 = (libsrng_random_halfword s).1 := by
  obtain ⟨t, u, ht⟩ := halfwordBody_shape (switchTriggerAdjust s)
  rw [libsrng_random_halfword, ht]
  show (t &&& 65535) &&& 65535 = t &&& 65535
  rw [Nat.and_assoc, (by decide : (65535 &&& 65535 : Nat) = 65535)]

/-- Zero reseeds leave the register untouched. -/
theorem seedIter_zero_eq (r : Nat) : seedIter 0 r = r := rfl

/-- C3 counterexample: `limit = 1` is a power of two, but `libsrng_random(r,
1, 0)` does not advance the register as one halfword call would — at
register 0 it leaves the register at 0 while `libsrng_random_halfword`
advances it to a nonzero value. -/
theorem random_pow2_counterexample :
    libsrng_random 1 (some 0) 1 0 = some (0, some 0) ∧
    (libsrng_random_halfword 0).2 ≠ 0 := by
  constructor
  · decide
  · decide

/-- C3 amended: `libsrng_random(r, 0, 0)` equals `libsrng_random_halfword(r)`
bit-for-bit, and for every power-of-two limit `2^k` with `1 ≤ k ≤ 15`,
`libsrng_random(r, 2^k, 0)` equals `libsrng_random_halfword(r) &&& (2^k -
1)`; in both cases the register is advanced exactly as by one halfword
call.  (The power-of-two limit 1 = 2^0 is excluded: there the value equality
holds trivially but no draw occurs and the register is unchanged.) -/
theorem random_pow2_spec :
    (∀ fuel r, libsrng_random fuel (some r) 0 0 =
      some ((libsrng_random_halfword r).1, some (libsrng_random_halfword r).2)) ∧
    (∀ fuel r k, 1 ≤ k → k ≤ 15 →
      libsrng_random fuel (some r) (2 ^ k) 0 =
      some ((libsrng_random_halfword r).1 &&& (2 ^ k - 1),
            some (libsrng_random_halfword r).2)) := by
  constructor
  · intro fuel r
    have hr : libsrng_random_range fuel r 0 =
        some ((libsrng_random_halfword r).1, (libsrng_random_halfword r).2) := by
      rw [libsrng_random_range, if_neg (by decide : ¬ (0 : Nat) = 1)]
      simp only []
      rw [if_pos (by decide : (0 : Nat) &&& (0 + 65535) % 65536 = 0)]
      rw [(by decide : ((0 : Nat) + 65535) % 65536 = 65535), halfword_fst_and r]
    rw [libsrng_random]
    simp only [seedIter_zero_eq]
    rw [hr]
  · intro fuel r k hk1 hk2
    interval_cases k <;>
    · rw [libsrng_random]
      simp only [seedIter_zero_eq]
      rw [libsrng_random_range, if_neg (by decide)]
      simp only []
      rw [if_pos (by decide)]
      norm_num

/-- Witness for C3: at register 0, fuel 1 and k = 3 (limit 8) the amended
theorem instantiates concretely. -/
theorem random_pow2_spec_witness :
    (1 : Nat) ≤ 3 ∧ (3 : Nat) ≤ 15 ∧
    libsrng_random 1 (some 0) (2 ^ 3) 0 =
      some ((libsrng_random_halfword 0).1 &&& (2 ^ 3 - 1),
            some (libsrng_random_halfword 0).2) :=
  ⟨by decide, by decide, random_pow2_spec.2 1 0 3 (by decide) (by decide)⟩

/-- XORing a value with a right shift of itself by a positive amount is zero
only at zero. -/
theorem xor_shr_ne_zero {x : Nat} (k : Nat) (hk : 0 < k) (hx : x ≠ 0) :
    x ^^^ (x >>> k) ≠ 0 := by
  intro h
  have hxx : x = x >>> k := Nat.xor_eq_zero.mp h
  rw [Nat.shiftRight_eq_div_pow] at hxx
  have h1 : 1 < 2 ^ k := by
    calc 1 < 2 := by norm_num
    _ ≤ 2 ^ k := Nat.le_self_pow (by omega) 2
  have h2 : x / 2 ^ k < x := Nat.div_lt_self (Nat.pos_of_ne_zero hx) h1
  omega

/-- XORing a value with its truncated left shift by 9 (the middle xorshift
step, in uint32_t arithmetic) is zero only at zero. -/
theorem xor_shl_ne_zero {x : Nat} (hx : x ≠ 0) :
    x ^^^ (x <<< 9) % 4294967296 ≠ 0 := by
  intro h
  have hxx : x = (x <<< 9) % 4294967296 := Nat.xor_eq_zero.mp h
  rw [Nat.shiftLeft_eq] at hxx
  norm_num at hxx
  have hxlt : x < 4294967296 := by
    rw [hxx]
    exact Nat.mod_lt _ (by norm_num)
  have hmod : x * 512 ≡ x [MOD 4294967296] := by
    show x * 512 % 4294967296 = x % 4294967296
    rw [Nat.mod_eq_of_lt hxlt]
    exact hxx.symm
  have hdvd : (4294967296 : Nat) ∣ x * 512 - x :=
    (Nat.modEq_iff_dvd' (by omega)).mp hmod.symm
  have heq : x * 512 - x = x * 511 := by omega
  rw [heq] at hdvd
  have hcop : Nat.Coprime 4294967296 511 := by decide
  have hdx : (4294967296 : Nat) ∣ x := hcop.dvd_of_dvd_mul_right hdvd
  exact hx (Nat.eq_zero_of_dvd_of_lt hdx hxlt)

set_option maxRecDepth 8192 in
/-- The lazy initialization of the shift field never produces zero: two
successive values of the linear counter cannot both be zero, so at least one
of the four bytes is set. -/
theorem shiftInit4_ne_zero : ∀ l, l < 256 →
    (shiftInitStep (shiftInitStep (shiftInitStep (shiftInitStep (0, l))))).1 ≠ 0 := by
  decide

/-- C9: after every `libsrng_stable_random` call the 32-bit shift field is
nonzero — a zero shift is lazily replaced by a nonzero refill, and the
xorshift triple maps nonzero values to nonzero values; hence shift = 0 can
occur only as a caller-supplied input and never recurs. -/
theorem stable_shift_nonzero (s : StableState) (hl : s.linear < 256) :
    (libsrng_stable_random s).2.shift ≠ 0 := by
  rw [libsrng_stable_random]
  simp only []
  by_cases h0 : s.shift = 0
  · rw [if_pos h0]
    apply xor_shr_ne_zero 23 (by norm_num)
    apply xor_shl_ne_zero
    apply xor_shr_ne_zero 8 (by norm_num)
    exact shiftInit4_ne_zero s.linear hl
  · rw [if_neg h0]
    apply xor_shr_ne_zero 23 (by norm_num)
    apply xor_shl_ne_zero
    apply xor_shr_ne_zero 8 (by norm_num)
    exact h0

/-- Witness for C9: the all-zero sub-state has linear below 256 and a
nonzero shift after one engine call. -/
theorem stable_shift_nonzero_witness :
    ((⟨0, 0, 0, 0, 0⟩ : StableState)).linear < 256 ∧
    (libsrng_stable_random ⟨0, 0, 0, 0, 0⟩).2.shift ≠ 0 :=
  ⟨by decide, stable_shift_nonzero ⟨0, 0, 0, 0, 0⟩ (by decide)⟩

/-- C4 counterexample: one concrete engine call (input sub-state shift 1,
all other fields 0) reaches the combine step with shift 513, linear 100,
current 44 — exactly the fields stored in its output state — and returns
214, while the claimed bit-3-4 / next-2-bits selection on those same values
yields 43. -/
theorem stable_combine_counterexample :
    (libsrng_stable_random ⟨1, 0, 0, 0, 0⟩).1 ≠
      stableCombineClaimed (libsrng_stable_random ⟨1, 0, 0, 0, 0⟩).2.shift
        (libsrng_stable_random ⟨1, 0, 0, 0, 0⟩).2.linear
        (libsrng_stable_random ⟨1, 0, 0, 0, 0⟩).2.current := by decide

set_option maxRecDepth 8192 in
/-- C4 amended: the engine's output is `stableCombine` applied to the
shift, linear and current fields it stores back, and for every linear below
256 the combine step extracts the 8 bits of `shift` at an offset in {0, 8,
16, 24} selected by bits 6-7 of `linear`, combining them with `current` by
add, XOR, subtract or reverse-subtract selected by bits 4-5. -/
theorem stable_combine_spec :
    (∀ s : StableState, (libsrng_stable_random s).1 =
      stableCombine (libsrng_stable_random s).2.shift (libsrng_stable_random s).2.linear
        (libsrng_stable_random s).2.current) ∧
    (∀ shift linear current : Nat, linear < 256 →
      stableCombine shift linear current = stableCombineBits67 shift linear current) := by
  constructor
  · intro s
    rfl
  · intro shift linear current hl
    have hoff : (linear >>> 3) &&& 24 = 8 * ((linear >>> 6) &&& 3) := by
      revert hl
      revert linear
      decide
    rw [stableCombine, stableCombineBits67, hoff]

/-- Witness for C4: at shift 0xFF00, linear 64, current 0 the amended
characterization evaluates on both sides to 255. -/
theorem stable_combine_spec_witness :
    (64 : Nat) < 256 ∧ stableCombine 65280 64 0 = stableCombineBits67 65280 64 0 :=
  ⟨by decide, stable_combine_spec.2 65280 64 0 (by decide)⟩

/-- The linear counter always yields a byte. -/
theorem nextLinear_lt (l : Nat) : nextLinear l < 256 := by
  rw [nextLinear]
  omega

/-- XOR of two uint32 values is a uint32 value. -/
theorem xor32 {a b : Nat} (ha : a < 4294967296) (hb : b < 4294967296) :
    a ^^^ b < 4294967296 := by
  have h := Nat.xor_lt_two_pow (n := 32) (by norm_num at ha ⊢; exact ha)
    (by norm_num at hb ⊢; exact hb)
  norm_num at h
  exact h

/-- Right shifts do not increase a value. -/
theorem shr_le (x k : Nat) : x >>> k ≤ x := by
  rw [Nat.shiftRight_eq_div_pow]
  exact Nat.div_le_self x (2 ^ k)

/-- One xorshift right-step stays below 2^32. -/
theorem xor_shr_lt {x : Nat} (k : Nat) (hx : x < 4294967296) :
    x ^^^ (x >>> k) < 4294967296 :=
  xor32 hx (Nat.lt_of_le_of_lt (shr_le x k) hx)

/-- The truncated xorshift left-step stays below 2^32. -/
theorem xor_shl_lt {x : Nat} (hx : x < 4294967296) :
    x ^^^ (x <<< 9) % 4294967296 < 4294967296 :=
  xor32 hx (Nat.mod_lt _ (by norm_num))

/-- The lazy-initialization step always writes a uint32 shift. -/
theorem shiftInitStep_fst_lt (p : Nat × Nat) : (shiftInitStep p).1 < 4294967296 := by
  rw [shiftInitStep]
  simp only []
  have ha : (p.1 <<< 8) % 4294967296 < 2 ^ 32 := by
    norm_num
    exact Nat.mod_lt _ (by norm_num)
  have hb : nextLinear p.2 < 2 ^ 32 :=
    Nat.lt_trans (nextLinear_lt _) (by norm_num)
  have h := Nat.or_lt_two_pow ha hb
  norm_num at h
  exact h

/-- The splice-escape scan keeps prev, current, carry below 256. -/
theorem spliceEscape_pcc {a b c : Nat} (ha : a < 256) (hb : b < 256) (hc : c < 256) :
    (spliceEscape a b c).1 < 256 ∧ (spliceEscape a b c).2.1 < 256 ∧
    (spliceEscape a b c).2.2 < 256 := by
  rw [spliceEscape]
  split_ifs <;> dsimp only <;> refine ⟨?_, ?_, ?_⟩ <;> omega

set_option maxHeartbeats 2000000 in
/-- The start-up-escape scan keeps prev, current, carry below 256. -/
theorem startupEscape_pcc {c : Nat} (l : Nat) (hc : c < 256) :
    (startupEscape c l).1 < 256 ∧ (startupEscape c l).2.1 < 256 ∧
    (startupEscape c l).2.2.1 < 256 := by
  rw [startupEscape]
  split_ifs <;> dsimp only <;> refine ⟨?_, ?_, ?_⟩ <;> omega

/-- The base-210 generator step writes a carry below 256 whenever its inputs
are bytes. -/
theorem gen_carry_lt {a b : Nat} (ha : a < 256) (hb : b < 256) :
    (210 * a + b) >>> 8 < 256 := by
  rw [Nat.shiftRight_eq_div_pow]
  have h : (2 : Nat) ^ 8 = 256 := by norm_num
  rw [h]
  omega

/-- The carry normalization keeps a byte a byte. -/
theorem sub210_lt {c : Nat} (hc : c < 256) : (if 210 ≤ c then c - 210 else c) < 256 := by
  split <;> omega

/-- Carry normalization of an arbitrary byte stays a byte. -/
theorem sub210_lt' {c : Nat} (hc : c < 256) : c - 210 < 256 := by omega

set_option maxRecDepth 4096 in
set_option maxHeartbeats 2000000 in
/-- The byte engine preserves the field widths of the sub-state: a uint32
shift and four uint8 fields go in, the same widths come out. -/
theorem stable_bounds (s : StableState) (h1 : s.shift < 4294967296) (h2 : s.carry < 256)
    (h3 : s.current < 256) (h4 : s.prev < 256) :
    (libsrng_stable_random s).2.shift < 4294967296 ∧
    (libsrng_stable_random s).2.carry < 256 ∧
    (libsrng_stable_random s).2.current < 256 ∧
    (libsrng_stable_random s).2.prev < 256 ∧
    (libsrng_stable_random s).2.linear < 256 := by
  rw [libsrng_stable_random]
  simp only []
  refine ⟨?_, ?_, ?_, ?_, ?_⟩
  · by_cases h0 : s.shift = 0
    · rw [if_pos h0]
      exact xor_shr_lt 23 (xor_shl_lt (xor_shr_lt 8 (shiftInitStep_fst_lt _)))
    · rw [if_neg h0]
      exact xor_shr_lt 23 (xor_shl_lt (xor_shr_lt 8 h1))
  · by_cases hpc : s.prev = 0 ∧ s.current = 0 <;>
      [rw [if_pos hpc]; rw [if_neg hpc]] <;>
      (repeat' split) <;>
    first
      | exact gen_carry_lt (nextLinear_lt _) (nextLinear_lt _)
      | exact gen_carry_lt (startupEscape_pcc _ h2).1 (sub210_lt' (startupEscape_pcc _ h2).2.2)
      | exact gen_carry_lt (startupEscape_pcc _ h2).1 (startupEscape_pcc _ h2).2.2
      | exact gen_carry_lt (spliceEscape_pcc h4 h3 h2).1 (sub210_lt' (spliceEscape_pcc h4 h3 h2).2.2)
      | exact gen_carry_lt (spliceEscape_pcc h4 h3 h2).1 (spliceEscape_pcc h4 h3 h2).2.2
  · exact Nat.lt_of_le_of_lt Nat.and_le_right (by norm_num)
  · by_cases hpc : s.prev = 0 ∧ s.current = 0 <;>
      [rw [if_pos hpc]; rw [if_neg hpc]] <;>
      (repeat' split) <;>
    first
      | exact nextLinear_lt _
      | exact (startupEscape_pcc _ h2).2.1
      | exact (spliceEscape_pcc h4 h3 h2).2.1
  · exact nextLinear_lt _

/-- A value below 2^k ORed with a left shift by k is their sum: the two
summands occupy disjoint bit ranges. -/
theorem or_shift_add {k : Nat} (a b : Nat) (h : a < 2 ^ k) :
    a ||| b <<< k = a + 2 ^ k * b := by
  rw [Nat.shiftLeft_eq, Nat.mul_comm b (2 ^ k), Nat.lor_comm,
    ← Nat.mul_add_lt_is_or h b]
  omega

/-- With in-range fields, the portable repacking formula is plain positional
arithmetic. -/
theorem packState_eq (t : StableState) (h1 : t.shift < 4294967296) (h2 : t.carry < 256)
    (h3 : t.current < 256) (h4 : t.prev < 256) :
    packState t = t.shift + 4294967296 * t.carry + 1099511627776 * t.current +
      281474976710656 * t.prev + 72057594037927936 * t.linear := by
  have p32 : (2 : Nat) ^ 32 = 4294967296 := by norm_num
  have p40 : (2 : Nat) ^ 40 = 1099511627776 := by norm_num
  have p48 : (2 : Nat) ^ 48 = 281474976710656 := by norm_num
  have p56 : (2 : Nat) ^ 56 = 72057594037927936 := by norm_num
  rw [packState]
  have e1 : t.shift ||| t.carry <<< 32 = t.shift + 4294967296 * t.carry := by
    rw [or_shift_add t.shift t.carry (by rw [p32]; exact h1), p32]
  have e2 : t.shift ||| t.carry <<< 32 ||| t.current <<< 40 =
      t.shift + 4294967296 * t.carry + 1099511627776 * t.current := by
    rw [e1, or_shift_add _ t.current (by rw [p40]; omega), p40]
  have e3 : t.shift ||| t.carry <<< 32 ||| t.current <<< 40 ||| t.prev <<< 48 =
      t.shift + 4294967296 * t.carry + 1099511627776 * t.current +
        281474976710656 * t.prev := by
    rw [e2, or_shift_add _ t.prev (by rw [p48]; omega), p48]
  rw [e3, or_shift_add _ t.linear (by rw [p56]; omega), p56]

/-- C6: the fast in-place reinterpretation branch and the portable explicit
bit-packing branch of `libsrng_random_combined` agree on every 64-bit
register: same byte out, same updated register, under the fixed field
mapping shift = bits 0-31, carry = 32-39, current = 40-47, prev = 48-55,
linear = 56-63. -/
theorem combined_fast_eq (s : Nat) :
    libsrng_random_combined_fast s = libsrng_random_combined s := by
  have hst : (⟨byteAt s 0 + 256 * byteAt s 1 + 65536 * byteAt s 2 + 16777216 * byteAt s 3,
      byteAt s 4, byteAt s 5, byteAt s 6, byteAt s 7⟩ : StableState) = unpackState s := by
    rw [unpackState]
    simp only [StableState.mk.injEq, byteAt, Nat.shiftRight_eq_div_pow]
    norm_num
    omega
  rw [libsrng_random_combined_fast, libsrng_random_combined, hst]
  try simp only []
  have hu1 : (unpackState s).shift < 4294967296 := by
    rw [unpackState]
    exact Nat.mod_lt _ (by norm_num)
  have hu2 : (unpackState s).carry < 256 := by
    rw [unpackState]
    exact Nat.mod_lt _ (by norm_num)
  have hu3 : (unpackState s).current < 256 := by
    rw [unpackState]
    exact Nat.mod_lt _ (by norm_num)
  have hu4 : (unpackState s).prev < 256 := by
    rw [unpackState]
    exact Nat.mod_lt _ (by norm_num)
  obtain ⟨b1, b2, b3, b4, b5⟩ := stable_bounds (unpackState s) hu1 hu2 hu3 hu4
  rw [packState_eq _ b1 b2 b3 b4]
  simp only [Prod.mk.injEq]
  refine ⟨trivial, ?_⟩
  rw [Nat.mod_eq_of_lt b2, Nat.mod_eq_of_lt b3, Nat.mod_eq_of_lt b4, Nat.mod_eq_of_lt b5]
  simp only [byteAt]
  norm_num
  omega

end Libsrng
